import Mathlib

/-!
Shallow embedding of the math-game simulation from `src/main.rs`
(a macroquad arcade game: phase state machine, player/hazard kinematics,
collision scoring and an adaptive question generator).

Modelling conventions:
* `f32` values (positions, velocities, elapsed time) are modelled as exact
  rationals `ℚ`; `i32` counters (score, lives) as `ℤ`.
* The random number generator `ext_rand::thread_rng` is modelled as an
  abstract stream `rng : Nat → Nat` together with a cursor index threaded
  through the computation; `gen_range(lo..=hi)` consumes one stream value
  and maps it into the range by Euclidean remainder.
* The unbounded rejection loop for distractors is modelled with explicit
  fuel; exhausted fuel (or an empty `gen_range` range, which panics in
  Rust) yields `none`.
* Rendered strings are modelled by their content: the prompt
  `format!("{} op {} = ?", a, b)` becomes the structure `Prompt` holding
  the two operands and the operator, and an answer box's displayed text
  (always the decimal rendering of an integer) is modelled by that
  integer in the field `text`.
* `screen_width()` is an environment parameter `w : ℚ` threaded through
  the functions that read it.
-/

attribute [local semireducible] Rat.add Rat.sub Rat.mul Rat.inv

/-- Top-level phase, from `enum GameState` in the source. -/
inductive GameState where
  | Menu : GameState
  | Playing : GameState
  | Pause : ℚ → GameState
  | GameOver : GameState
deriving DecidableEq

/-- Player locomotion sub-state, from `enum PlayerState`. -/
inductive PlayerState where
  | Normal : PlayerState
  | Fail : PlayerState
deriving DecidableEq

/-- Math operation selection, from `enum Operation`. -/
inductive Operation where
  | Addition : Operation
  | Multiplication : Operation
  | Division : Operation
  | Mixed : Operation
deriving DecidableEq

/-- An answer box, from `struct MultipleChoice`. The displayed string
`text` (always produced by `to_string` on an `i32`) is modelled by the
integer itself. -/
structure MultipleChoice where
  x : ℚ
  y : ℚ
  text : ℤ
  is_correct : Bool
deriving DecidableEq

/-- The question prompt, modelling `format!("{} <op> {} = ?", lhs, rhs)`
by its two operands and the operator symbol that appears between them. -/
structure Prompt where
  lhs : ℤ
  op : Operation
  rhs : ℤ
deriving DecidableEq

/-- The player entity, from `struct Player`. -/
structure Player where
  x : ℚ
  y : ℚ
  vx : ℚ
  vy : ℚ
  width : ℚ
  height : ℚ
  state : PlayerState
deriving DecidableEq

/-- The descending hazard, from `struct Alien`. -/
structure Alien where
  x : ℚ
  y : ℚ
  width : ℚ
  height : ℚ
  speed : ℚ
deriving DecidableEq

/-- `const MOVE_SPEED: f32 = 3.0`. -/
def MOVE_SPEED : ℚ := 3

/-- `const BOOST: f32 = 0.3`. -/
def BOOST : ℚ := 3 / 10

/-- `const GRAVITY: f32 = 0.2`. -/
def GRAVITY : ℚ := 1 / 5

/-- `const GROUND_Y: f32 = 600.0`. -/
def GROUND_Y : ℚ := 600

/-- `const ALIEN_WALL_BUFFER: f32 = 10.0`. -/
def ALIEN_WALL_BUFFER : ℚ := 10

/-- `const ALIEN_WIDTH: f32 = 60.0`. -/
def ALIEN_WIDTH : ℚ := 60

/-- `const ALIEN_WALL: f32 = ALIEN_WIDTH + ALIEN_WALL_BUFFER` (= 70). -/
def ALIEN_WALL : ℚ := ALIEN_WIDTH + ALIEN_WALL_BUFFER

/-- `const INITIAL_LIVES: i32 = 10`. -/
def INITIAL_LIVES : ℤ := 10

/-- `fn new_player()`: fresh player at the alien wall, on the ground. -/
def new_player : Player :=
  { x := ALIEN_WALL
    y := GROUND_Y - 50
    vx := 0
    vy := 0
    width := 60
    height := 60
    state := PlayerState.Normal }

/-- Model of `rng.gen_range(lo..=hi)`: one stream draw `r`, mapped into
`[lo, hi]` by Euclidean remainder.  An empty range (`hi < lo`) panics in
Rust and is modelled as `none`. -/
def genRange (lo hi : ℤ) (r : Nat) : Option ℤ :=
  if hi < lo then none else some (lo + (r : ℤ) % (hi - lo + 1))

/-- Addition operand bound: `let addition_max = 10 + (score / 500) * 10`.
Integer division is Rust truncating division; every score that occurs in
the game is nonnegative, where `Int` division agrees with it. -/
def addition_max (score : ℤ) : ℤ := 10 + score / 500 * 10

/-- `let multiply_base = 5 + (score / 500) * 5`. -/
def multiply_base (score : ℤ) : ℤ := 5 + score / 500 * 5

/-- `let multiply_max = multiply_base.min(15)`. -/
def multiply_max (score : ℤ) : ℤ := min (multiply_base score) 15

/-- `let division_max = multiply_max`. -/
def division_max (score : ℤ) : ℤ := multiply_max score

/-- The distractor rejection loop: draw from `[1, 2*ramp]` and redraw
while the value equals the correct answer.  Returns the accepted value
and the advanced stream cursor; `none` on fuel exhaustion or an empty
range. -/
def drawWrong (ca ramp : ℤ) (rng : Nat → Nat) : Nat → Nat → Option (ℤ × Nat)
  | 0, _ => none
  | fuel + 1, k =>
      match genRange 1 (ramp * 2) (rng k) with
      | none => none
      | some v => if v = ca then drawWrong ca ramp rng fuel (k + 1) else some (v, k + 1)

/-- Swap the entries at positions `i` and `j` of a list (identity when an
index is out of range), the primitive step of the Fisher–Yates shuffle
used by `SliceRandom::shuffle`. -/
def listSwap {α : Type} (l : List α) (i j : Nat) : List α :=
  match l.get? i, l.get? j with
  | some a, some b => (l.set i b).set j a
  | _, _ => l

/-- The Fisher–Yates downward pass of `answers.shuffle(&mut rng)`: for
`i = n, n-1, ..., 1`, swap position `i` with a drawn position in
`[0, i]`, consuming one stream value per step. -/
def fyShuffle {α : Type} (rng : Nat → Nat) : List α → Nat → Nat → List α × Nat
  | l, 0, k => (l, k)
  | l, n + 1, k => fyShuffle rng (listSwap l (n + 1) (rng k % (n + 2))) n (k + 1)

/-- Assign the evenly spaced box positions, mirroring the indexed loop
`ans.x = margin + slot_width * (i as f32 + 0.5) - 40.0; ans.y = 200.0`. -/
def setPositions (slot : ℚ) : Nat → List MultipleChoice → List MultipleChoice
  | _, [] => []
  | i, c :: rest =>
      { c with x := 100 + slot * ((i : ℚ) + 1 / 2) - 40, y := 200 } ::
        setPositions slot (i + 1) rest

/-- The answer-list tail of `generate_question`: push the correct choice
and three rejection-sampled distractors, shuffle, and assign the evenly
spaced box positions across the screen of width `w`. -/
def mkChoices (w : ℚ) (fuel : Nat) (correct_answer ramp_max : ℤ)
    (rng : Nat → Nat) (k : Nat) : Option (List MultipleChoice × Nat) :=
  match drawWrong correct_answer ramp_max rng fuel k with
  | none => none
  | some (w1, k3) =>
    match drawWrong correct_answer ramp_max rng fuel k3 with
    | none => none
    | some (w2, k4) =>
      match drawWrong correct_answer ramp_max rng fuel k4 with
      | none => none
      | some (w3, k5) =>
        let answers : List MultipleChoice :=
          [⟨0, 0, correct_answer, true⟩, ⟨0, 0, w1, false⟩,
           ⟨0, 0, w2, false⟩, ⟨0, 0, w3, false⟩]
        let shuffled := fyShuffle rng answers (answers.length - 1) k5
        let margin : ℚ := 100
        let available_width := w - 2 * margin
        let num_choices : ℚ := (shuffled.1.length : ℚ)
        let slot_width := available_width / num_choices
        some (setPositions slot_width 0 shuffled.1, shuffled.2)

/-- `fn generate_question(score, op)`: build the prompt and the four
positioned answer choices.  `w` is the screen width, `fuel` bounds each
distractor rejection loop, `rng`/`k` are the random stream and cursor.
Returns the prompt, the choices, and the advanced cursor. -/
def generate_question (w : ℚ) (fuel : Nat) (score : ℤ) (op : Operation)
    (rng : Nat → Nat) (k : Nat) : Option (Prompt × List MultipleChoice × Nat) :=
  -- Mixed mode draws the actual operation uniformly from the three others.
  let pick : Operation × Nat :=
    match op with
    | Operation.Mixed =>
        (match rng k % 3 with
         | 0 => Operation.Addition
         | 1 => Operation.Multiplication
         | _ => Operation.Division, k + 1)
    | _ => (op, k)
  let actual_op := pick.1
  let k1 := pick.2
  -- Generate the operands, the prompt and the correct answer.
  let gen : Option (Prompt × ℤ × Nat) :=
    match actual_op with
    | Operation.Addition =>
        match genRange 1 (addition_max score) (rng k1),
              genRange 1 (addition_max score) (rng (k1 + 1)) with
        | some num1, some num2 =>
            some (⟨num1, Operation.Addition, num2⟩, num1 + num2, k1 + 2)
        | _, _ => none
    | Operation.Multiplication =>
        match genRange 1 (multiply_max score) (rng k1),
              genRange 1 (multiply_max score) (rng (k1 + 1)) with
        | some num1, some num2 =>
            some (⟨num1, Operation.Multiplication, num2⟩, num1 * num2, k1 + 2)
        | _, _ => none
    | Operation.Division =>
        match genRange 1 (division_max score) (rng k1),
              genRange 1 (division_max score) (rng (k1 + 1)) with
        | some divisor, some quotient =>
            some (⟨divisor * quotient, Operation.Division, divisor⟩, quotient, k1 + 2)
        | _, _ => none
    | Operation.Mixed => none
  match gen with
  | none => none
  | some (question_str, correct_answer, k2) =>
    let ramp_max : ℤ :=
      match actual_op with
      | Operation.Addition => addition_max score
      | Operation.Multiplication => multiply_max score
      | Operation.Division => division_max score
      | Operation.Mixed => 1
    match mkChoices w fuel correct_answer ramp_max rng k2 with
    | none => none
    | some (answers, k5) => some (question_str, answers, k5)

/-- Axis-aligned box overlap test, from `fn overlaps`. -/
def overlaps (ax ay aw ah cx cy cw ch : ℚ) : Bool :=
  decide (ax < cx + cw) && decide (ax + aw > cx) &&
  decide (ay < cy + ch) && decide (ay + ah > cy)

/-- One per-tick input sample: held movement keys, the frame time `dt`,
and the edge-triggered menu / restart keys. -/
structure Input where
  left : Bool
  right : Bool
  up : Bool
  dt : ℚ
  key0 : Bool
  key1 : Bool
  key2 : Bool
  key3 : Bool
  keyA : Bool
  keyM : Bool
  keyD : Bool
  keyX : Bool
  space : Bool
deriving DecidableEq

/-- A neutral input: no keys, zero frame time. -/
def Input.idle : Input :=
  ⟨false, false, false, 0, false, false, false, false, false, false, false, false, false⟩

/-- `fn update_player`: integrate the player one tick.  `w` is the screen
width used by the right-hand clamp. -/
def update_player (w : ℚ) (i : Input) (p : Player) : Player :=
  match p.state with
  | PlayerState.Normal =>
      let vx : ℚ := if i.left then -MOVE_SPEED else if i.right then MOVE_SPEED else 0
      let vy0 : ℚ := if i.up then p.vy - BOOST else p.vy
      let vy1 := vy0 + GRAVITY
      let x1 := p.x + vx
      let y1 := p.y + vy1
      let x2 := if x1 < ALIEN_WALL then ALIEN_WALL else x1
      let x3 := if x2 + p.width > w then w - p.width else x2
      let yv2 : ℚ × ℚ := if y1 < 0 then (0, 0) else (y1, vy1)
      let yv3 : ℚ × ℚ :=
        if yv2.1 + p.height > GROUND_Y + p.height then (GROUND_Y, 0) else yv2
      { p with x := x3, y := yv3.1, vx := vx, vy := yv3.2 }
  | PlayerState.Fail =>
      let vy1 := p.vy + GRAVITY
      let y1 := p.y + vy1
      if y1 + p.height > GROUND_Y + p.height then
        { p with y := GROUND_Y, vx := 0, vy := 0, state := PlayerState.Normal }
      else
        { p with y := y1, vx := 0, vy := vy1 }

/-- `fn update_alien_speed`: the hazard speed derived from score (the
source writes it into `alien.speed`; we return the value). -/
def update_alien_speed (score : ℤ) : ℚ :=
  if score < 500 then 50
  else 50 + (1 + (⌊((score : ℚ) - 500) / 1000⌋ : ℤ)) * 25

/-- Result of the collision scan: `is_correct` of the first answer box
the player overlaps (the loop `for choice in &choices { ... break }`),
`none` when no box overlaps.  Choice boxes are hit-tested at 100 × 80. -/
def firstOverlap (p : Player) (choices : List MultipleChoice) : Option Bool :=
  (choices.find? fun c => overlaps p.x p.y p.width p.height c.x c.y 100 80).map
    (fun c => c.is_correct)

/-- Whole mutable state of `main`'s loop. -/
structure GState where
  game_state : GameState
  score : ℤ
  lives : ℤ
  question : Prompt
  choices : List MultipleChoice
  player : Player
  alien : Alien
  selected_op : Operation
  rngIdx : Nat
deriving DecidableEq

/-- The initial bindings of `main`: menu phase, score 0, full lives, an
empty question (`String::new()`, modelled by a zero prompt), no choices,
fresh player, alien at the origin with base speed. -/
def initState : GState :=
  { game_state := GameState.Menu
    score := 0
    lives := INITIAL_LIVES
    question := ⟨0, Operation.Addition, 0⟩
    choices := []
    player := new_player
    alien := ⟨0, 0, 200, 200, 50⟩
    selected_op := Operation.Addition
    rngIdx := 0 }

/-- Menu difficulty start: set the score preset, reset lives, player and
alien, generate the first question, and enter `Playing`. -/
def startGame (w : ℚ) (rng : Nat → Nat) (fuel : Nat) (s : GState) (preset : ℤ) :
    Option GState :=
  match generate_question w fuel preset s.selected_op rng s.rngIdx with
  | none => none
  | some (q, c, k) =>
      some { s with
        game_state := GameState.Playing
        score := preset
        lives := INITIAL_LIVES
        player := new_player
        alien := { s.alien with y := 0 }
        question := q
        choices := c
        rngIdx := k }

/-- The breach block of the `Playing` arm: when the alien's bottom edge
reaches the ground line, lose a life; at zero lives switch to `GameOver`,
otherwise reset the alien and player and regenerate the question. -/
def breachStep (w : ℚ) (rng : Nat → Nat) (fuel : Nat) (s : GState) : Option GState :=
  if s.alien.y + s.alien.height ≥ GROUND_Y then
    let lives := s.lives - 1
    if lives ≤ 0 then
      some { s with lives := lives, game_state := GameState.GameOver }
    else
      match generate_question w fuel s.score s.selected_op rng s.rngIdx with
      | none => none
      | some (q, c, k) =>
          some { s with
            lives := lives
            alien := { s.alien with y := 0 }
            player := new_player
            question := q
            choices := c
            rngIdx := k }
  else some s

/-- The collision block of the `Playing` arm: scanned only in `Normal`
locomotion; a correct hit awards 100 points and starts the half-second
pause, a wrong hit costs a life (entering `Fail`, or `GameOver` at zero
lives). -/
def collideStep (s : GState) : GState :=
  if s.player.state = PlayerState.Normal then
    match firstOverlap s.player s.choices with
    | none => s
    | some correct =>
        if correct then
          { s with score := s.score + 100, game_state := GameState.Pause (1 / 2) }
        else
          let lives := s.lives - 1
          if lives ≤ 0 then
            { s with lives := lives, game_state := GameState.GameOver }
          else
            { s with lives := lives,
                     player := { s.player with state := PlayerState.Fail } }
  else s

/-- One resolved tick of `main`'s loop, dispatching on the phase exactly
as the `match game_state` in the source (the menu op-select block runs
only in the `Menu` phase and is folded into that arm). -/
def step (w : ℚ) (rng : Nat → Nat) (fuel : Nat) (s : GState) (i : Input) :
    Option GState :=
  match s.game_state with
  | GameState.Menu =>
      let s :=
        if i.keyA then { s with selected_op := Operation.Addition }
        else if i.keyM then { s with selected_op := Operation.Multiplication }
        else if i.keyD then { s with selected_op := Operation.Division }
        else if i.keyX then { s with selected_op := Operation.Mixed }
        else s
      if i.key0 then startGame w rng fuel s 0
      else if i.key1 then startGame w rng fuel s 500
      else if i.key2 then startGame w rng fuel s 1000
      else if i.key3 then startGame w rng fuel s 1500
      else some s
  | GameState.Playing =>
      let p1 := update_player w i s.player
      let sp := update_alien_speed s.score
      let a1 : Alien := { s.alien with speed := sp, y := s.alien.y + sp * i.dt }
      let s1 := { s with player := p1, alien := a1 }
      match breachStep w rng fuel s1 with
      | none => none
      | some s2 => some (collideStep s2)
  | GameState.Pause t =>
      let t' := t - i.dt
      if t' ≤ 0 then
        match generate_question w fuel s.score s.selected_op rng s.rngIdx with
        | none => none
        | some (q, c, k) =>
            some { s with
              game_state := GameState.Playing
              player := new_player
              alien := { s.alien with y := 0 }
              question := q
              choices := c
              rngIdx := k }
      else some { s with game_state := GameState.Pause t' }
  | GameState.GameOver =>
      if i.space then some { s with game_state := GameState.Menu } else some s

/-- Run a sequence of ticks; a `none` tick (Rust panic / unterminated
rejection loop) aborts the run. -/
def runSteps (w : ℚ) (rng : Nat → Nat) (fuel : Nat) : GState → List Input → Option GState
  | s, [] => some s
  | s, i :: rest =>
      match step w rng fuel s i with
      | none => none
      | some s' => runSteps w rng fuel s' rest

/-- The all-zero random stream, used for concrete runs. -/
def rngA : Nat → Nat := fun _ => 0

/-- A random stream differing from `rngA` only in the three shuffle draws
of the tenth generated question (cursor positions 77–79), which leave the
correct choice in the first answer slot. -/
def rngB : Nat → Nat := fun n => if 77 ≤ n && n ≤ 79 then 1 else 0

/-- Menu tick input: difficulty key 0 pressed. -/
def menuStart : Input := { Input.idle with key0 := true }

/-- A tick with 9 seconds of frame time and no keys: the alien descends
450 px and breaches. -/
def breachIn : Input := { Input.idle with dt := 9 }

/-- A zero-dt tick holding the ascend key. -/
def upIn : Input := { Input.idle with up := true }

/-- A zero-dt tick holding the right key. -/
def rightIn : Input := { Input.idle with right := true }

/-- The decisive tick: right key held and 9 seconds of frame time, so the
player steps into the first answer box in the same tick as the breach. -/
def finalIn : Input := { Input.idle with right := true, dt := 9 }

/-- A 95-tick input script from the menu: start at difficulty 0, take
nine breaches (lives 10 → 1), climb for 73 ticks at the left wall, drift
right for 11 ticks to the edge of the first answer box, then enter the
box in the same tick as a tenth breach. -/
def traceInputs : List Input :=
  [menuStart] ++ List.replicate 9 breachIn ++ List.replicate 73 upIn
    ++ List.replicate 11 rightIn ++ [finalIn]

/-- Trace segment 1: menu start plus the nine breach ticks. -/
def tIn1 : List Input := [menuStart] ++ List.replicate 9 breachIn

/-- Trace segment 2: the first 37 climb ticks. -/
def tIn2 : List Input := List.replicate 37 upIn

/-- Trace segment 3: the remaining 36 climb ticks. -/
def tIn3 : List Input := List.replicate 36 upIn

/-- Trace segment 4: the 11 rightward drift ticks. -/
def tIn4 : List Input := List.replicate 11 rightIn

/-- Trace segment 5: the decisive breach-and-collision tick. -/
def tIn5 : List Input := [finalIn]

/-- The state reached from the menu after segment 1 under `rngA`:
lives are down to 1 and the all-zero shuffle left the correct choice in
the last slot. -/
def midA10 : GState :=
  { game_state := GameState.Playing, score := 0, lives := 1
    question := ⟨1, Operation.Addition, 1⟩
    choices := [⟨163, 200, 1, false⟩, ⟨369, 200, 1, false⟩,
                ⟨575, 200, 1, false⟩, ⟨781, 200, 2, true⟩]
    player := ⟨70, 550, 0, 0, 60, 60, PlayerState.Normal⟩
    alien := ⟨0, 0, 200, 200, 50⟩
    selected_op := Operation.Addition, rngIdx := 80 }

/-- The `rngA` state after segments 1–2 (37 climb ticks). -/
def midA47 : GState :=
  { midA10 with
    player := ⟨70, 4797 / 10, 0, -37 / 10, 60, 60, PlayerState.Normal⟩ }

/-- The `rngA` state after segments 1–3 (73 climb ticks). -/
def midA83 : GState :=
  { midA10 with
    player := ⟨70, 2799 / 10, 0, -73 / 10, 60, 60, PlayerState.Normal⟩ }

/-- The state reached after segment 1 under `rngB`: identical to the
`rngA` state except that the final shuffle left the correct choice in
the first slot. -/
def midB10 : GState :=
  { midA10 with
    choices := [⟨163, 200, 2, true⟩, ⟨369, 200, 1, false⟩,
                ⟨575, 200, 1, false⟩, ⟨781, 200, 1, false⟩] }

/-- The `rngB` state after segments 1–2. -/
def midB47 : GState :=
  { midB10 with
    player := ⟨70, 4797 / 10, 0, -37 / 10, 60, 60, PlayerState.Normal⟩ }

/-- The `rngB` state after segments 1–3. -/
def midB83 : GState :=
  { midB10 with
    player := ⟨70, 2799 / 10, 0, -73 / 10, 60, 60, PlayerState.Normal⟩ }

/-- A `Playing` state used as a concrete tick input in witnesses. -/
def playingInit : GState := { initState with game_state := GameState.Playing }

/-- The state after one idle tick from `playingInit`. -/
def playingInitAfter : GState :=
  { game_state := GameState.Playing, score := 0, lives := 10
    question := ⟨0, Operation.Addition, 0⟩, choices := []
    player := ⟨70, 2751 / 5, 0, 1 / 5, 60, 60, PlayerState.Normal⟩
    alien := ⟨0, 0, 200, 200, 50⟩
    selected_op := Operation.Addition, rngIdx := 0 }

/-- A `Playing` state with one life whose alien is about to breach. -/
def breachState : GState :=
  { initState with game_state := GameState.Playing, lives := 1
                   alien := ⟨0, 400, 200, 200, 50⟩ }

/-- The state after one idle tick from `breachState`: the breach takes
the last life and the phase is `GameOver`. -/
def breachStateAfter : GState :=
  { game_state := GameState.GameOver, score := 0, lives := 0
    question := ⟨0, Operation.Addition, 0⟩, choices := []
    player := ⟨70, 2751 / 5, 0, 1 / 5, 60, 60, PlayerState.Normal⟩
    alien := ⟨0, 400, 200, 200, 50⟩
    selected_op := Operation.Addition, rngIdx := 0 }

/-- A `Playing` state whose player hovers over the correct answer box. -/
def hoverState : GState :=
  { initState with
    game_state := GameState.Playing
    choices := [⟨163, 200, 2, true⟩, ⟨369, 200, 1, false⟩,
                ⟨575, 200, 1, false⟩, ⟨781, 200, 1, false⟩]
    player := ⟨200, 210, 0, 0, 60, 60, PlayerState.Normal⟩ }

/-- A state pausing for the regular half second after a correct answer. -/
def pauseState : GState :=
  { initState with game_state := GameState.Pause (1 / 2) }

/-- The state after the pause countdown of `pauseState` expires under a
9-second tick and the all-zero stream. -/
def pauseStateAfter : GState :=
  { game_state := GameState.Playing, score := 0, lives := 10
    question := ⟨1, Operation.Addition, 1⟩
    choices := [⟨163, 200, 1, false⟩, ⟨369, 200, 1, false⟩,
                ⟨575, 200, 1, false⟩, ⟨781, 200, 2, true⟩]
    player := new_player
    alien := ⟨0, 0, 200, 200, 50⟩
    selected_op := Operation.Addition, rngIdx := 8 }

/-- A successful `genRange` draw lies in the requested interval. -/
lemma genRange_bounds {lo hi : ℤ} {r : Nat} {v : ℤ}
    (h : genRange lo hi r = some v) : lo ≤ v ∧ v ≤ hi := by
  unfold genRange at h
  split at h
  · exact absurd h (by simp)
  · rename_i hle
    push_neg at hle
    injection h with h
    subst h
    have hpos : 0 < hi - lo + 1 := by omega
    have h0 : 0 ≤ (r : ℤ) % (hi - lo + 1) :=
      Int.emod_nonneg _ (by omega)
    have h1 : (r : ℤ) % (hi - lo + 1) < hi - lo + 1 :=
      Int.emod_lt_of_pos _ hpos
    omega

/-- A distractor accepted by the rejection loop differs from the correct
answer and lies in `[1, 2*ramp]`. -/
lemma drawWrong_spec {ca ramp : ℤ} {rng : Nat → Nat} :
    ∀ {fuel k : Nat} {v : ℤ} {k' : Nat},
      drawWrong ca ramp rng fuel k = some (v, k') →
      v ≠ ca ∧ 1 ≤ v ∧ v ≤ ramp * 2 := by
  intro fuel
  induction fuel with
  | zero => intro k v k' h; exact absurd h (by simp [drawWrong])
  | succ n ih =>
      intro k v k' h
      unfold drawWrong at h
      split at h
      · exact absurd h (by simp)
      · rename_i u hg
        split at h
        · exact ih h
        · rename_i hu
          injection h with h
          have hb := genRange_bounds hg
          cases h
          exact ⟨hu, hb.1, hb.2⟩

/-- Replacing position `k` (which holds `b`) by `x` and re-consing `b` in
front is a permutation of consing `x` in front. -/
lemma cons_set_perm {α : Type} (x : α) :
    ∀ (xs : List α) (k : Nat) (b : α), xs.get? k = some b →
      (b :: xs.set k x).Perm (x :: xs) := by
  intro xs
  induction xs with
  | nil => intro k b h; exact absurd h (by simp)
  | cons y t ih =>
      intro k b h
      cases k with
      | zero =>
          simp only [List.get?] at h
          injection h with h
          subst h
          simpa using List.Perm.swap x y t
      | succ k =>
          simp only [List.get?] at h
          have step1 : (b :: y :: t.set k x).Perm (y :: b :: t.set k x) :=
            List.Perm.swap y b _
          have step2 : (y :: b :: t.set k x).Perm (y :: x :: t) :=
            List.Perm.cons y (ih k b h)
          have step3 : (y :: x :: t).Perm (x :: y :: t) := List.Perm.swap x y t
          simpa using (step1.trans step2).trans step3

/-- Swapping two present entries of a list is a permutation. -/
lemma set_set_perm {α : Type} :
    ∀ (l : List α) (i j : Nat) (a b : α), l.get? i = some a →
      l.get? j = some b → ((l.set i b).set j a).Perm l := by
  intro l
  induction l with
  | nil => intro i j a b hi _; exact absurd hi (by simp)
  | cons y t ih =>
      intro i j a b hi hj
      cases i with
      | zero =>
          simp only [List.get?] at hi
          injection hi with hi
          subst hi
          cases j with
          | zero =>
              simp only [List.get?] at hj
              injection hj with hj
              subst hj
              simp
          | succ j =>
              simp only [List.get?] at hj
              simpa [List.set] using cons_set_perm y t j b hj
      | succ i =>
          simp only [List.get?] at hi
          cases j with
          | zero =>
              simp only [List.get?] at hj
              injection hj with hj
              subst hj
              simpa [List.set] using cons_set_perm y t i a hi
          | succ j =>
              simp only [List.get?] at hj
              simpa [List.set] using List.Perm.cons y (ih i j a b hi hj)

/-- `listSwap` permutes the list. -/
lemma listSwap_perm {α : Type} (l : List α) (i j : Nat) :
    (listSwap l i j).Perm l := by
  unfold listSwap
  split
  · rename_i a b hi hj
    exact set_set_perm l i j a b hi hj
  · exact List.Perm.refl l

/-- The Fisher–Yates pass permutes the list. -/
lemma fyShuffle_perm {α : Type} (rng : Nat → Nat) :
    ∀ (n : Nat) (l : List α) (k : Nat), ((fyShuffle rng l n k).1).Perm l := by
  intro n
  induction n with
  | zero => intro l k; exact List.Perm.refl l
  | succ n ih =>
      intro l k
      exact (ih _ (k + 1)).trans (listSwap_perm l (n + 1) (rng k % (n + 2)))

/-- `setPositions` keeps the list length. -/
lemma setPositions_length (slot : ℚ) :
    ∀ (i : Nat) (l : List MultipleChoice),
      (setPositions slot i l).length = l.length := by
  intro i l
  induction l generalizing i with
  | nil => rfl
  | cons c rest ih => simp [setPositions, ih]

/-- `setPositions` keeps the number of correct choices. -/
lemma setPositions_countP (slot : ℚ) :
    ∀ (i : Nat) (l : List MultipleChoice),
      (setPositions slot i l).countP (fun c => c.is_correct) =
        l.countP (fun c => c.is_correct) := by
  intro i l
  induction l generalizing i with
  | nil => rfl
  | cons c rest ih => simp [setPositions, List.countP_cons, ih]

/-- Every element of `setPositions` arises from an element of the input
with the same text and correctness flag, and sits at `y = 200`. -/
lemma setPositions_mem (slot : ℚ) :
    ∀ (i : Nat) (l : List MultipleChoice) (c : MultipleChoice),
      c ∈ setPositions slot i l →
        (∃ d ∈ l, c.text = d.text ∧ c.is_correct = d.is_correct) ∧ c.y = 200 := by
  intro i l
  induction l generalizing i with
  | nil => intro c h; exact absurd h (by simp [setPositions])
  | cons d rest ih =>
      intro c h
      simp only [setPositions, List.mem_cons] at h
      cases h with
      | inl h => subst h; exact ⟨⟨d, by simp⟩, rfl⟩
      | inr h =>
          obtain ⟨⟨e, he, ht, hc⟩, hy⟩ := ih (i + 1) c h
          exact ⟨⟨e, by simp [he], ht, hc⟩, hy⟩

/-- Running an appended input script first runs the prefix. -/
lemma runSteps_append {w : ℚ} {rng : Nat → Nat} {fuel : Nat} :
    ∀ {l1 : List Input} (l2 : List Input) {s s' : GState},
      runSteps w rng fuel s l1 = some s' →
      runSteps w rng fuel s (l1 ++ l2) = runSteps w rng fuel s' l2 := by
  intro l1
  induction l1 with
  | nil =>
      intro l2 s s' h
      injection h with h
      subst h
      rfl
  | cons i rest ih =>
      intro l2 s s' h
      rw [List.cons_append]
      simp only [runSteps] at h ⊢
      cases hst : step w rng fuel s i with
      | none =>
          rw [hst] at h
          exact absurd h (by simp)
      | some s1 =>
          rw [hst] at h
          dsimp only at h ⊢
          exact ih l2 h

/-- A successful `mkChoices` run yields exactly four choices with exactly
one correct flag, the correct choice carrying the correct answer, every
distractor differing from it, and every box at `y = 200`. -/
lemma mkChoices_spec {w : ℚ} {fuel : Nat} {ca ramp : ℤ} {rng : Nat → Nat}
    {k : Nat} {ans : List MultipleChoice} {k' : Nat}
    (h : mkChoices w fuel ca ramp rng k = some (ans, k')) :
    ans.length = 4 ∧ ans.countP (fun c => c.is_correct) = 1 ∧
      (∀ c ∈ ans, (c.is_correct = true → c.text = ca) ∧
        (c.is_correct = false → c.text ≠ ca)) ∧
      ∀ c ∈ ans, c.y = 200 := by
  unfold mkChoices at h
  split at h
  · exact absurd h (by simp)
  · rename_i w1 k3 h1
    split at h
    · exact absurd h (by simp)
    · rename_i w2 k4 h2
      split at h
      · exact absurd h (by simp)
      · rename_i w3 k5 h3
        have hw1 := (drawWrong_spec h1).1
        have hw2 := (drawWrong_spec h2).1
        have hw3 := (drawWrong_spec h3).1
        simp only [Option.some.injEq, Prod.mk.injEq] at h
        obtain ⟨hans, -⟩ := h
        subst hans
        have hp := fyShuffle_perm rng
          (([⟨0, 0, ca, true⟩, ⟨0, 0, w1, false⟩, ⟨0, 0, w2, false⟩,
             ⟨0, 0, w3, false⟩] : List MultipleChoice).length - 1)
          ([⟨0, 0, ca, true⟩, ⟨0, 0, w1, false⟩, ⟨0, 0, w2, false⟩,
            ⟨0, 0, w3, false⟩] : List MultipleChoice) k5
        refine ⟨?_, ?_, ?_, ?_⟩
        · rw [setPositions_length, hp.length_eq]
          rfl
        · rw [setPositions_countP, hp.countP_eq]
          rfl
        · intro c hc
          obtain ⟨⟨d, hd, ht, hcorr⟩, -⟩ := setPositions_mem _ 0 _ c hc
          have hdL := hp.mem_iff.mp hd
          simp only [List.mem_cons, List.not_mem_nil, or_false] at hdL
          rcases hdL with rfl | rfl | rfl | rfl
          · exact ⟨fun _ => ht, fun hfalse => absurd (hcorr ▸ hfalse) (by simp)⟩
          · exact ⟨fun htrue => absurd (hcorr ▸ htrue) (by simp),
              fun _ => ht ▸ hw1⟩
          · exact ⟨fun htrue => absurd (hcorr ▸ htrue) (by simp),
              fun _ => ht ▸ hw2⟩
          · exact ⟨fun htrue => absurd (hcorr ▸ htrue) (by simp),
              fun _ => ht ▸ hw3⟩
        · intro c hc
          exact (setPositions_mem _ 0 _ c hc).2

/-- Any successful `generate_question` call produces its answer list via
`mkChoices` with the correct answer as rejection target. -/
lemma generate_question_mkChoices {w : ℚ} {fuel : Nat} {score : ℤ}
    {op : Operation} {rng : Nat → Nat} {k : Nat} {q : Prompt}
    {ans : List MultipleChoice} {k' : Nat}
    (h : generate_question w fuel score op rng k = some (q, ans, k')) :
    ∃ ca ramp k2, mkChoices w fuel ca ramp rng k2 = some (ans, k') := by
  unfold generate_question at h
  cases op <;> (try dsimp only at h)
  case Mixed =>
    rcases hm : rng k % 3 with _ | _ | m <;> rw [hm] at h <;> (try dsimp only at h) <;>
      · split at h
        · exact absurd h (by simp)
        · rename_i n1 n2 hg1 hg2
          split at h
          · exact absurd h (by simp)
          · rename_i a k5 hmk
            simp only [Option.some.injEq, Prod.mk.injEq] at h
            exact ⟨_, _, _, hmk.trans (by rw [h.2.1, h.2.2])⟩
  all_goals
    split at h
    · exact absurd h (by simp)
    · rename_i n1 n2 hg1 hg2
      split at h
      · exact absurd h (by simp)
      · rename_i a k5 hmk
        simp only [Option.some.injEq, Prod.mk.injEq] at h
        exact ⟨_, _, _, hmk.trans (by rw [h.2.1, h.2.2])⟩

/-- C1: for every score and operation mode, a (successful) call of
`generate_question` returns exactly 4 answer choices, exactly 1 of which
has the correctness flag set, and every distractor value differs from the
correct answer value. -/
theorem generate_question_four_one_correct (w : ℚ) (fuel : Nat) (score : ℤ)
    (op : Operation) (rng : Nat → Nat) (k : Nat) (q : Prompt)
    (ans : List MultipleChoice) (k' : Nat)
    (h : generate_question w fuel score op rng k = some (q, ans, k')) :
    ans.length = 4 ∧ ans.countP (fun c => c.is_correct) = 1 ∧
      ∀ c ∈ ans, c.is_correct = true →
        ∀ d ∈ ans, d.is_correct = false → d.text ≠ c.text := by
  obtain ⟨ca, ramp, k2, hmk⟩ := generate_question_mkChoices h
  obtain ⟨hlen, hcount, hpt, -⟩ := mkChoices_spec hmk
  refine ⟨hlen, hcount, ?_⟩
  intro c hc hcorr d hd hwrong
  rw [(hpt c hc).1 hcorr]
  exact (hpt d hd).2 hwrong

/-- Witness for C1 at score 0, Addition, the all-zero stream. -/
theorem generate_question_four_one_correct_witness :
    (([⟨163, 200, 1, false⟩, ⟨369, 200, 1, false⟩, ⟨575, 200, 1, false⟩,
       ⟨781, 200, 2, true⟩] : List MultipleChoice).length = 4 ∧
      ([⟨163, 200, 1, false⟩, ⟨369, 200, 1, false⟩, ⟨575, 200, 1, false⟩,
        ⟨781, 200, 2, true⟩] : List MultipleChoice).countP
          (fun c => c.is_correct) = 1 ∧
      ∀ c ∈ ([⟨163, 200, 1, false⟩, ⟨369, 200, 1, false⟩,
        ⟨575, 200, 1, false⟩, ⟨781, 200, 2, true⟩] : List MultipleChoice),
        c.is_correct = true →
        ∀ d ∈ ([⟨163, 200, 1, false⟩, ⟨369, 200, 1, false⟩,
          ⟨575, 200, 1, false⟩, ⟨781, 200, 2, true⟩] : List MultipleChoice),
          d.is_correct = false → d.text ≠ c.text) :=
  generate_question_four_one_correct 1024 5 0 Operation.Addition rngA 0
    ⟨1, Operation.Addition, 1⟩ _ 8 (by decide)

/-- C2: a successful Division question draws divisor and quotient from
`[1, division_max score]`, displays `divisor * quotient` as dividend with
the divisor after the division sign, and its correct choice carries the
quotient. -/
theorem generate_question_division_struct (w : ℚ) (fuel : Nat) (score : ℤ)
    (rng : Nat → Nat) (k : Nat) (q : Prompt) (ans : List MultipleChoice)
    (k' : Nat)
    (h : generate_question w fuel score Operation.Division rng k =
      some (q, ans, k')) :
    ∃ divisor quotient : ℤ,
      1 ≤ divisor ∧ divisor ≤ division_max score ∧
      1 ≤ quotient ∧ quotient ≤ division_max score ∧
      q = ⟨divisor * quotient, Operation.Division, divisor⟩ ∧
      ∀ c ∈ ans, c.is_correct = true → c.text = quotient := by
  unfold generate_question at h
  dsimp only at h
  split at h
  · exact absurd h (by simp)
  · rename_i q0 ca k2 hgen
    split at hgen
    case h_2 => exact absurd hgen (by simp)
    case h_1 =>
      rename_i x1 x2 divisor quotient hg1 hg2
      simp only [Option.some.injEq, Prod.mk.injEq] at hgen
      obtain ⟨hq0, hca, hk2⟩ := hgen
      split at h
      · exact absurd h (by simp)
      · rename_i x3 a k5 hmk
        simp only [Option.some.injEq, Prod.mk.injEq] at h
        obtain ⟨hq, hans, hk⟩ := h
        have hb1 := genRange_bounds hg1
        have hb2 := genRange_bounds hg2
        have hmk2 : mkChoices w fuel quotient (division_max score) rng (k + 2) =
            some (ans, k') := by
          rw [hca, hk2]
          exact hmk.trans (by rw [hans, hk])
        obtain ⟨-, -, hpt, -⟩ := mkChoices_spec hmk2
        refine ⟨divisor, quotient, hb1.1, hb1.2, hb2.1, hb2.2, ?_,
          fun c hc hcorr => (hpt c hc).1 hcorr⟩
        rw [← hq, ← hq0]

/-- Witness for C2 at score 0 and the identity stream. -/
theorem generate_question_division_struct_witness :
    ∃ divisor quotient : ℤ,
      1 ≤ divisor ∧ divisor ≤ division_max 0 ∧
      1 ≤ quotient ∧ quotient ≤ division_max 0 ∧
      (⟨2, Operation.Division, 1⟩ : Prompt) =
        ⟨divisor * quotient, Operation.Division, divisor⟩ ∧
      ∀ c ∈ ([⟨163, 200, 4, false⟩, ⟨369, 200, 5, false⟩, ⟨575, 200, 2, true⟩,
        ⟨781, 200, 3, false⟩] : List MultipleChoice),
        c.is_correct = true → c.text = quotient :=
  generate_question_division_struct 1024 5 0 (fun n => n) 0
    ⟨2, Operation.Division, 1⟩ _ 8 (by decide)

/-- C3: the hazard speed is the base 50 below score 500; at or above it
equals `50 + (1 + floor((score-500)/1000)) * 25`; it is monotonic
non-decreasing in score; and it is constant on each 1000-score bucket
above the threshold (the staircase steps). -/
theorem update_alien_speed_staircase :
    (∀ s : ℤ, s < 500 → update_alien_speed s = 50) ∧
    (∀ s : ℤ, 500 ≤ s →
      update_alien_speed s = 50 + (1 + (⌊((s : ℚ) - 500) / 1000⌋ : ℤ)) * 25) ∧
    (∀ s t : ℤ, s ≤ t → update_alien_speed s ≤ update_alien_speed t) ∧
    (∀ s j : ℤ, 0 ≤ j → 500 + 1000 * j ≤ s → s < 500 + 1000 * (j + 1) →
      update_alien_speed s = 50 + ((1 : ℚ) + j) * 25) := by
  have hfloor : ∀ s j : ℤ, 0 ≤ j → 500 + 1000 * j ≤ s →
      s < 500 + 1000 * (j + 1) → ⌊((s : ℚ) - 500) / 1000⌋ = j := by
    intro s j hj h1 h2
    have h1q : (500 : ℚ) + 1000 * (j : ℚ) ≤ (s : ℚ) := by exact_mod_cast h1
    have h2q : (s : ℚ) < 500 + 1000 * ((j : ℚ) + 1) := by exact_mod_cast h2
    rw [Int.floor_eq_iff]
    constructor
    · rw [le_div_iff₀ (by norm_num : (0 : ℚ) < 1000)]
      linarith
    · rw [div_lt_iff₀ (by norm_num : (0 : ℚ) < 1000)]
      linarith
  refine ⟨?_, ?_, ?_, ?_⟩
  · intro s h
    unfold update_alien_speed
    rw [if_pos h]
  · intro s h
    unfold update_alien_speed
    rw [if_neg (by omega : ¬ s < 500)]
  · intro s t hst
    unfold update_alien_speed
    by_cases hs : s < 500 <;> by_cases ht : t < 500
    · rw [if_pos hs, if_pos ht]
    · rw [if_pos hs, if_neg ht]
      have htq : (0 : ℚ) ≤ ((t : ℚ) - 500) / 1000 := by
        apply div_nonneg _ (by norm_num)
        push_neg at ht
        have : (500 : ℚ) ≤ (t : ℚ) := by exact_mod_cast ht
        linarith
      have hf : (0 : ℤ) ≤ ⌊((t : ℚ) - 500) / 1000⌋ := Int.floor_nonneg.mpr htq
      have hfq : (0 : ℚ) ≤ ((⌊((t : ℚ) - 500) / 1000⌋ : ℤ) : ℚ) := by
        exact_mod_cast hf
      linarith
    · omega
    · rw [if_neg hs, if_neg ht]
      have hdiv : ((s : ℚ) - 500) / 1000 ≤ ((t : ℚ) - 500) / 1000 := by
        apply div_le_div_of_nonneg_right ?_ (by norm_num)
        have : (s : ℚ) ≤ (t : ℚ) := by exact_mod_cast hst
        linarith
      have hf := Int.floor_le_floor hdiv
      have hfq : ((⌊((s : ℚ) - 500) / 1000⌋ : ℤ) : ℚ) ≤
          ((⌊((t : ℚ) - 500) / 1000⌋ : ℤ) : ℚ) := by exact_mod_cast hf
      linarith
  · intro s j hj h1 h2
    unfold update_alien_speed
    rw [if_neg (by omega : ¬ s < 500), hfloor s j hj h1 h2]

/-- Witness for C3 at concrete scores. -/
theorem update_alien_speed_staircase_witness :
    update_alien_speed 499 = 50 ∧
    update_alien_speed 1700 =
      50 + (1 + (⌊((1700 : ℚ) - 500) / 1000⌋ : ℤ)) * 25 ∧
    update_alien_speed 300 ≤ update_alien_speed 2000 ∧
    update_alien_speed 1700 = 50 + ((1 : ℚ) + 1) * 25 :=
  ⟨update_alien_speed_staircase.1 499 (by norm_num),
   update_alien_speed_staircase.2.1 1700 (by norm_num),
   update_alien_speed_staircase.2.2.1 300 2000 (by norm_num),
   update_alien_speed_staircase.2.2.2 1700 1 (by norm_num) (by norm_num)
     (by norm_num)⟩

/-- C7: each operation's operand bound is monotonic non-decreasing in the
score; the Addition bound exceeds any target (unbounded); and the
Multiplication and Division bounds never exceed the ceiling 15. -/
theorem operand_bounds_spec :
    (∀ s t : ℤ, 0 ≤ s → s ≤ t → addition_max s ≤ addition_max t) ∧
    (∀ s t : ℤ, 0 ≤ s → s ≤ t → multiply_max s ≤ multiply_max t) ∧
    (∀ s t : ℤ, 0 ≤ s → s ≤ t → division_max s ≤ division_max t) ∧
    (∀ s : ℤ, 0 ≤ s → multiply_max s ≤ 15 ∧ division_max s ≤ 15) ∧
    (∀ B : ℤ, ∃ s : ℤ, 0 ≤ s ∧ B ≤ addition_max s) := by
  have hdiv : ∀ s t : ℤ, s ≤ t → s / 500 ≤ t / 500 := fun s t h =>
    Int.ediv_le_ediv (by norm_num) h
  have hmul : ∀ s t : ℤ, 0 ≤ s → s ≤ t → multiply_max s ≤ multiply_max t := by
    intro s t _ h
    unfold multiply_max multiply_base
    have := hdiv s t h
    omega
  refine ⟨?_, hmul, ?_, ?_, ?_⟩
  · intro s t _ h
    unfold addition_max
    have := hdiv s t h
    omega
  · intro s t hs h
    unfold division_max
    exact hmul s t hs h
  · intro s _
    unfold division_max multiply_max
    exact ⟨min_le_right _ _, min_le_right _ _⟩
  · intro B
    refine ⟨500 * max B 0, ?_, ?_⟩
    · have := le_max_right B 0
      positivity
    · unfold addition_max
      rw [Int.mul_ediv_cancel_left _ (by norm_num : (500 : ℤ) ≠ 0)]
      have h1 := le_max_left B 0
      have h2 := le_max_right B 0
      omega

/-- Witness for C7 at concrete scores. -/
theorem operand_bounds_spec_witness :
    addition_max 0 ≤ addition_max 2000 ∧
    multiply_max 0 ≤ multiply_max 2000 ∧
    division_max 0 ≤ division_max 2000 ∧
    (multiply_max 99999 ≤ 15 ∧ division_max 99999 ≤ 15) ∧
    ∃ s : ℤ, 0 ≤ s ∧ 12345 ≤ addition_max s :=
  ⟨operand_bounds_spec.1 0 2000 (by norm_num) (by norm_num),
   operand_bounds_spec.2.1 0 2000 (by norm_num) (by norm_num),
   operand_bounds_spec.2.2.1 0 2000 (by norm_num) (by norm_num),
   operand_bounds_spec.2.2.2.1 99999 (by norm_num),
   operand_bounds_spec.2.2.2.2 12345⟩

/-- One tick of `update_player` keeps the horizontal position between the
alien wall and the right screen edge (and the player width fixed). -/
lemma update_player_x_bounds {w : ℚ} (hw : 130 ≤ w) (i : Input) (p : Player)
    (hp : ALIEN_WALL ≤ p.x ∧ p.x ≤ w - p.width ∧ p.width = 60) :
    ALIEN_WALL ≤ (update_player w i p).x ∧
      (update_player w i p).x ≤ w - (update_player w i p).width ∧
      (update_player w i p).width = 60 := by
  obtain ⟨h1, h2, h3⟩ := hp
  rcases p with ⟨px, py, pvx, pvy, pw, ph, pst⟩
  simp only at h1 h2 h3
  subst h3
  cases pst
  case Normal =>
    simp only [update_player, ALIEN_WALL, ALIEN_WIDTH, ALIEN_WALL_BUFFER] at h1 h2 ⊢
    split_ifs with hx1 hx2 hx3 <;>
      refine ⟨by linarith, by linarith, by trivial⟩
  case Fail =>
    simp only [update_player, ALIEN_WALL, ALIEN_WIDTH, ALIEN_WALL_BUFFER] at h1 h2 ⊢
    split_ifs <;> exact ⟨h1, h2, by trivial⟩

/-- The fold of `update_player` preserves the horizontal-position
invariant from any starting pose that satisfies it. -/
lemma foldl_update_player_inv (w : ℚ) (hw : 130 ≤ w) :
    ∀ (inputs : List Input) (p : Player),
      ALIEN_WALL ≤ p.x ∧ p.x ≤ w - p.width ∧ p.width = 60 →
      ALIEN_WALL ≤ (inputs.foldl (fun p i => update_player w i p) p).x ∧
        (inputs.foldl (fun p i => update_player w i p) p).x ≤
          w - (inputs.foldl (fun p i => update_player w i p) p).width ∧
        (inputs.foldl (fun p i => update_player w i p) p).width = 60 := by
  intro inputs
  induction inputs with
  | nil => intro p hp; exact hp
  | cons i rest ih =>
      intro p hp
      exact ih (update_player w i p) (update_player_x_bounds hw i p hp)

/-- C8: starting from the spawn pose, any finite sequence of player ticks
with arbitrary inputs leaves the x coordinate between the alien-wall
offset and the screen width minus the player width. -/
theorem player_x_within_walls (w : ℚ) (hw : 130 ≤ w) (inputs : List Input) :
    ALIEN_WALL ≤ (inputs.foldl (fun p i => update_player w i p) new_player).x ∧
      (inputs.foldl (fun p i => update_player w i p) new_player).x ≤
        w - (inputs.foldl (fun p i => update_player w i p) new_player).width := by
  have h := foldl_update_player_inv w hw inputs new_player
    ⟨le_refl _, by simp only [new_player, ALIEN_WALL, ALIEN_WIDTH,
      ALIEN_WALL_BUFFER]; linarith, rfl⟩
  exact ⟨h.1, h.2.1⟩

/-- Witness for C8: two ticks at screen width 1024. -/
theorem player_x_within_walls_witness :
    ALIEN_WALL ≤
      (([upIn, rightIn] : List Input).foldl
        (fun p i => update_player 1024 i p) new_player).x ∧
      (([upIn, rightIn] : List Input).foldl
        (fun p i => update_player 1024 i p) new_player).x ≤
        1024 - (([upIn, rightIn] : List Input).foldl
          (fun p i => update_player 1024 i p) new_player).width :=
  player_x_within_walls 1024 (by norm_num) [upIn, rightIn]

/-- C9: while locomotion is `Fail`, a tick ignores all input, forces the
horizontal velocity to 0, accumulates gravity on the vertical velocity
and integrates the position; locomotion reverts to `Normal` exactly when
the integrated position passes the ground line, and that positional test
is the only exit from `Fail`. -/
theorem fail_locomotion (w : ℚ) (i j : Input) (p : Player)
    (h : p.state = PlayerState.Fail) :
    update_player w i p = update_player w j p ∧
    (update_player w i p).vx = 0 ∧
    (p.y + (p.vy + GRAVITY) > GROUND_Y →
      update_player w i p =
        { p with y := GROUND_Y, vx := 0, vy := 0,
                 state := PlayerState.Normal }) ∧
    (¬(p.y + (p.vy + GRAVITY) > GROUND_Y) →
      update_player w i p =
        { p with y := p.y + (p.vy + GRAVITY), vx := 0,
                 vy := p.vy + GRAVITY }) ∧
    ((update_player w i p).state = PlayerState.Normal ↔
      p.y + (p.vy + GRAVITY) > GROUND_Y) := by
  rcases p with ⟨px, py, pvx, pvy, pw, ph, pst⟩
  simp only at h
  subst h
  simp only [update_player]
  split_ifs with hc
  · have hgt : py + (pvy + GRAVITY) > GROUND_Y := by linarith
    exact ⟨trivial, rfl, fun _ => rfl, fun hn => absurd hgt hn,
      iff_of_true rfl hgt⟩
  · have hle : ¬ py + (pvy + GRAVITY) > GROUND_Y := by
      intro hgt
      exact hc (by linarith)
    refine ⟨trivial, rfl, fun hgt => absurd hgt hle, fun _ => rfl, ?_⟩
    constructor
    · intro hst
      exact absurd hst (by simp)
    · intro hgt
      exact absurd hgt hle
  
/-- Witness for C9 at a concrete failing pose. -/
theorem fail_locomotion_witness :
    update_player 1024 Input.idle (⟨100, 100, 0, 0, 60, 60,
        PlayerState.Fail⟩ : Player) =
      update_player 1024 upIn (⟨100, 100, 0, 0, 60, 60,
        PlayerState.Fail⟩ : Player) ∧
    (update_player 1024 Input.idle (⟨100, 100, 0, 0, 60, 60,
        PlayerState.Fail⟩ : Player)).vx = 0 ∧
    ((100 : ℚ) + (0 + GRAVITY) > GROUND_Y →
      update_player 1024 Input.idle (⟨100, 100, 0, 0, 60, 60,
          PlayerState.Fail⟩ : Player) =
        { (⟨100, 100, 0, 0, 60, 60, PlayerState.Fail⟩ : Player) with
            y := GROUND_Y, vx := 0, vy := 0, state := PlayerState.Normal }) ∧
    (¬((100 : ℚ) + (0 + GRAVITY) > GROUND_Y) →
      update_player 1024 Input.idle (⟨100, 100, 0, 0, 60, 60,
          PlayerState.Fail⟩ : Player) =
        { (⟨100, 100, 0, 0, 60, 60, PlayerState.Fail⟩ : Player) with
            y := (100 : ℚ) + (0 + GRAVITY), vx := 0, vy := 0 + GRAVITY }) ∧
    ((update_player 1024 Input.idle (⟨100, 100, 0, 0, 60, 60,
        PlayerState.Fail⟩ : Player)).state = PlayerState.Normal ↔
      (100 : ℚ) + (0 + GRAVITY) > GROUND_Y) :=
  fail_locomotion 1024 Input.idle upIn _ rfl

/-- C10: a `Pause` tick whose countdown does not expire changes only the
remaining time: score, lives, question, choices, player, alien and the
operation mode are untouched. -/
theorem pause_tick_frame_effect (w : ℚ) (rng : Nat → Nat) (fuel : Nat)
    (s : GState) (i : Input) (r : ℚ) (h : s.game_state = GameState.Pause r)
    (hdt : 0 < r - i.dt) :
    step w rng fuel s i =
      some { s with game_state := GameState.Pause (r - i.dt) } := by
  rcases s with ⟨gs, sc, lv, qu, ch, pl, al, sop, ri⟩
  simp only at h
  subst h
  simp only [step]
  rw [if_neg (by linarith : ¬ r - i.dt ≤ 0)]

/-- Witness for C10: a one-second pause tick with zero frame time. -/
theorem pause_tick_frame_effect_witness :
    step 1024 rngA 5 { initState with game_state := GameState.Pause 1 }
        Input.idle =
      some { { initState with game_state := GameState.Pause 1 } with
        game_state := GameState.Pause (1 - Input.idle.dt) } :=
  pause_tick_frame_effect 1024 rngA 5 _ Input.idle 1 rfl (by norm_num [Input.idle])

/-- Case analysis of the breach block. -/
lemma breachStep_inv {w : ℚ} {rng : Nat → Nat} {fuel : Nat} {s1 s2 : GState}
    (h : breachStep w rng fuel s1 = some s2) :
    (¬(s1.alien.y + s1.alien.height ≥ GROUND_Y) ∧ s2 = s1) ∨
    (s1.alien.y + s1.alien.height ≥ GROUND_Y ∧ s1.lives - 1 ≤ 0 ∧
      s2 = { s1 with lives := s1.lives - 1,
                     game_state := GameState.GameOver }) ∨
    (s1.alien.y + s1.alien.height ≥ GROUND_Y ∧ ¬(s1.lives - 1 ≤ 0) ∧
      ∃ q c k, generate_question w fuel s1.score s1.selected_op rng
          s1.rngIdx = some (q, c, k) ∧
        s2 = { s1 with lives := s1.lives - 1,
                       alien := { s1.alien with y := 0 },
                       player := new_player, question := q, choices := c,
                       rngIdx := k }) := by
  unfold breachStep at h
  split at h
  · rename_i hbreach
    dsimp only at h
    split at h
    · rename_i hle
      injection h with h
      exact Or.inr (Or.inl ⟨hbreach, hle, h.symm⟩)
    · rename_i hgt
      split at h
      · exact absurd h (by simp)
      · rename_i q c k hgen
        injection h with h
        exact Or.inr (Or.inr ⟨hbreach, hgt, q, c, k, hgen, h.symm⟩)
  · rename_i hnob
    injection h with h
    exact Or.inl ⟨hnob, h.symm⟩

/-- Case analysis of the collision block. -/
lemma collideStep_inv (s2 : GState) :
    ((s2.player.state ≠ PlayerState.Normal ∨
        firstOverlap s2.player s2.choices = none) ∧ collideStep s2 = s2) ∨
    (s2.player.state = PlayerState.Normal ∧
      firstOverlap s2.player s2.choices = some true ∧
      collideStep s2 = { s2 with score := s2.score + 100,
                                 game_state := GameState.Pause (1 / 2) }) ∨
    (s2.player.state = PlayerState.Normal ∧
      firstOverlap s2.player s2.choices = some false ∧ s2.lives - 1 ≤ 0 ∧
      collideStep s2 = { s2 with lives := s2.lives - 1,
                                 game_state := GameState.GameOver }) ∨
    (s2.player.state = PlayerState.Normal ∧
      firstOverlap s2.player s2.choices = some false ∧ ¬(s2.lives - 1 ≤ 0) ∧
      collideStep s2 = { s2 with lives := s2.lives - 1,
                                 player := { s2.player with
                                   state := PlayerState.Fail } }) := by
  unfold collideStep
  split
  · rename_i hnorm
    split
    · rename_i hov
      exact Or.inl ⟨Or.inr hov, rfl⟩
    · rename_i b hov
      split
      · rename_i htrue
        subst htrue
        exact Or.inr (Or.inl ⟨hnorm, hov, rfl⟩)
      · rename_i hfalse
        have hb : b = false := by revert hfalse; cases b <;> simp
        subst hb
        dsimp only
        split
        · rename_i hdead
          exact Or.inr (Or.inr (Or.inl ⟨hnorm, hov, hdead, rfl⟩))
        · rename_i halive
          exact Or.inr (Or.inr (Or.inr ⟨hnorm, hov, halive, rfl⟩))
  · rename_i hnn
    exact Or.inl ⟨Or.inl hnn, rfl⟩

/-- The `Playing` arm of `step` in terms of the breach and collision
blocks. -/
lemma step_playing_inv {w : ℚ} {rng : Nat → Nat} {fuel : Nat} {s : GState}
    {i : Input} {s' : GState} (hgs : s.game_state = GameState.Playing)
    (h : step w rng fuel s i = some s') :
    ∃ s2, breachStep w rng fuel
        { s with player := update_player w i s.player,
                 alien := { s.alien with
                   speed := update_alien_speed s.score,
                   y := s.alien.y + update_alien_speed s.score * i.dt } } =
        some s2 ∧ s' = collideStep s2 := by
  rcases s with ⟨gs, sc, lv, qu, ch, pl, al, sop, ri⟩
  simp only at hgs
  subst hgs
  simp only [step] at h
  split at h
  · exact absurd h (by simp)
  · rename_i s2 hbr
    injection h with h
    exact ⟨s2, hbr, h.symm⟩

/-- The spawn pose never overlaps answer boxes laid out at `y = 200`. -/
lemma firstOverlap_new_player_none {ans : List MultipleChoice}
    (h200 : ∀ c ∈ ans, c.y = 200) :
    firstOverlap new_player ans = none := by
  unfold firstOverlap
  have hfind : List.find? (fun c => overlaps new_player.x new_player.y
      new_player.width new_player.height c.x c.y 100 80) ans = none := by
    rw [List.find?_eq_none]
    intro c hc
    simp only [overlaps, new_player, GROUND_Y, h200 c hc, Bool.and_eq_true,
      decide_eq_true_eq, not_and]
    intro h
    norm_num at h
  rw [hfind]
  rfl

set_option maxRecDepth 40000 in
/-- Counterexample to C5: the 95-tick script from the menu ends with
`lives = -1`, strictly below the value 0 at which the `GameOver`
transition fires (the final tick loses one life to the breach, reaching
0 and setting `GameOver`, and a second life to a wrong-answer collision
in the same tick). -/
theorem lives_below_zero_reachable :
    (runSteps 1024 rngA 5 initState traceInputs).map
      (fun s => (s.lives, s.game_state)) =
      some (-1, GameState.GameOver) := by
  have e : traceInputs = tIn1 ++ (tIn2 ++ (tIn3 ++ (tIn4 ++ tIn5))) := rfl
  have h1 : runSteps 1024 rngA 5 initState tIn1 = some midA10 := by decide
  have h2 : runSteps 1024 rngA 5 midA10 tIn2 = some midA47 := by decide
  have h3 : runSteps 1024 rngA 5 midA47 tIn3 = some midA83 := by decide
  rw [e, runSteps_append (tIn2 ++ (tIn3 ++ (tIn4 ++ tIn5))) h1,
    runSteps_append (tIn3 ++ (tIn4 ++ tIn5)) h2,
    runSteps_append (tIn4 ++ tIn5) h3]
  decide

/-- Amended C5: a single `Playing` tick decreases lives by at most 2. -/
theorem step_lives_drop_bound (w : ℚ) (rng : Nat → Nat) (fuel : Nat)
    (s : GState) (i : Input) (s' : GState)
    (hgs : s.game_state = GameState.Playing)
    (h : step w rng fuel s i = some s') :
    s.lives - 2 ≤ s'.lives := by
  obtain ⟨s2, hbr, rfl⟩ := step_playing_inv hgs h
  have h2 : s.lives - 1 ≤ s2.lives := by
    rcases breachStep_inv hbr with ⟨-, rfl⟩ | ⟨-, -, rfl⟩ |
      ⟨-, -, q, c, k, -, rfl⟩ <;> dsimp only <;>
      set L := s.lives <;> omega
  rcases collideStep_inv s2 with ⟨-, heq⟩ | ⟨-, -, heq⟩ | ⟨-, -, -, heq⟩ |
    ⟨-, -, -, heq⟩ <;> rw [heq] <;> (try dsimp only) <;>
    set L := s.lives <;> set M := s2.lives <;> omega

/-- Witness for the amended C5 at a concrete `Playing` tick. -/
theorem step_lives_drop_bound_witness :
    playingInit.lives - 2 ≤ playingInitAfter.lives :=
  step_lives_drop_bound 1024 rngA 5 playingInit Input.idle playingInitAfter
    rfl (by decide)

set_option maxRecDepth 40000 in
/-- Counterexample to C4: after 94 ticks the state is a `Playing` tick
with `lives = 1`; the 95th tick drives lives to 0 (hazard breach, which
sets `GameOver`), yet the same tick's correct-answer collision overrides
the phase to `Pause (1/2)`, so the resolved tick does not end in
`GameOver`. -/
theorem lives_zero_not_gameover_reachable :
    (runSteps 1024 rngB 5 initState (traceInputs.take 94)).map
        (fun s => (s.game_state, s.lives)) =
        some (GameState.Playing, 1) ∧
      (runSteps 1024 rngB 5 initState traceInputs).map
        (fun s => (s.game_state, s.lives)) =
        some (GameState.Pause (1 / 2), 0) := by
  have h1 : runSteps 1024 rngB 5 initState tIn1 = some midB10 := by decide
  have h2 : runSteps 1024 rngB 5 midB10 tIn2 = some midB47 := by decide
  have h3 : runSteps 1024 rngB 5 midB47 tIn3 = some midB83 := by decide
  constructor
  · have e94 : traceInputs.take 94 = tIn1 ++ (tIn2 ++ (tIn3 ++ tIn4)) := rfl
    rw [e94, runSteps_append (tIn2 ++ (tIn3 ++ tIn4)) h1,
      runSteps_append (tIn3 ++ tIn4) h2, runSteps_append tIn4 h3]
    decide
  · have e : traceInputs = tIn1 ++ (tIn2 ++ (tIn3 ++ (tIn4 ++ tIn5))) := rfl
    rw [e, runSteps_append (tIn2 ++ (tIn3 ++ (tIn4 ++ tIn5))) h1,
      runSteps_append (tIn3 ++ (tIn4 ++ tIn5)) h2,
      runSteps_append (tIn4 ++ tIn5) h3]
    decide

/-- Amended C4: when a `Playing` tick drives lives from positive to ≤ 0,
the tick ends in `GameOver` — unless the drop came from the hazard
breach and the (un-reset) player still overlaps the correct answer
choice in the same tick, in which case the tick ends in
`Pause (1/2)` with lives exactly 0. -/
theorem lives_zero_gameover_amended (w : ℚ) (rng : Nat → Nat) (fuel : Nat)
    (s : GState) (i : Input) (s' : GState)
    (hgs : s.game_state = GameState.Playing)
    (h : step w rng fuel s i = some s')
    (hl : 0 < s.lives) (hl' : s'.lives ≤ 0) :
    s'.game_state = GameState.GameOver ∨
      (s'.game_state = GameState.Pause (1 / 2) ∧ s'.lives = 0 ∧
        firstOverlap (update_player w i s.player) s.choices = some true) := by
  obtain ⟨s2, hbr, rfl⟩ := step_playing_inv hgs h
  rcases breachStep_inv hbr with ⟨hnob, rfl⟩ | ⟨hb, hdead, rfl⟩ |
    ⟨hb, halive, q, c, k, hgen, rfl⟩
  · -- no breach: only a wrong-answer collision can reach lives ≤ 0
    rcases collideStep_inv _ with ⟨-, heq⟩ | ⟨-, -, heq⟩ | ⟨-, -, -, heq⟩ |
      ⟨-, -, halive2, heq⟩ <;> rw [heq] at hl' ⊢ <;> dsimp only at hl' ⊢
    · exfalso; set L := s.lives; omega
    · exfalso; set L := s.lives; omega
    · exact Or.inl rfl
    · exfalso
      dsimp only at halive2
      set L := s.lives
      omega
  · -- breach to lives ≤ 0: GameOver unless overridden by a correct hit
    dsimp only at hdead
    rcases collideStep_inv _ with ⟨-, heq⟩ | ⟨-, hov, heq⟩ |
      ⟨-, -, -, heq⟩ | ⟨-, -, halive2, heq⟩ <;> rw [heq] at hl' ⊢ <;>
      dsimp only at hl' ⊢
    · exact Or.inl rfl
    · refine Or.inr ⟨rfl, by set L := s.lives; omega, ?_⟩
      dsimp only at hov
      exact hov
    · exact Or.inl rfl
    · exfalso
      dsimp only at halive2
      set L := s.lives
      omega
  · -- breach with lives remaining: the reset player cannot collide
    have h200 : ∀ d ∈ c, d.y = 200 := by
      obtain ⟨ca, ramp, k2, hmk⟩ := generate_question_mkChoices hgen
      exact (mkChoices_spec hmk).2.2.2
    have hovnone :
        firstOverlap new_player c = none := firstOverlap_new_player_none h200
    dsimp only at halive
    rcases collideStep_inv _ with ⟨-, heq⟩ | ⟨-, hov, -⟩ | ⟨-, hov, -, -⟩ |
      ⟨-, hov, -, -⟩
    · rw [heq] at hl'
      dsimp only at hl'
      exfalso
      omega
    all_goals
      dsimp only at hov
      rw [hovnone] at hov
      exact absurd hov (by simp)

/-- Witness for the amended C4: a breach tick with no overlap ends in
`GameOver`. -/
theorem lives_zero_gameover_amended_witness :
    breachStateAfter.game_state = GameState.GameOver ∨
      (breachStateAfter.game_state = GameState.Pause (1 / 2) ∧
        breachStateAfter.lives = 0 ∧
        firstOverlap (update_player 1024 Input.idle breachState.player)
          breachState.choices = some true) :=
  lives_zero_gameover_amended 1024 rngA 5 breachState Input.idle
    breachStateAfter rfl (by decide) (by decide) (by decide)

/-- The `Pause` arm of `step`, written out. -/
lemma step_pause_eq (w : ℚ) (rng : Nat → Nat) (fuel : Nat) (r : ℚ)
    (sc lv : ℤ) (qu : Prompt) (ch : List MultipleChoice) (pl : Player)
    (al : Alien) (sop : Operation) (ri : Nat) (i : Input) :
    step w rng fuel ⟨GameState.Pause r, sc, lv, qu, ch, pl, al, sop, ri⟩ i =
      if r - i.dt ≤ 0 then
        match generate_question w fuel sc sop rng ri with
        | none => none
        | some (q, c, k) =>
            some ⟨GameState.Playing, sc, lv, q, c, new_player,
              { al with y := 0 }, sop, k⟩
      else
        some ⟨GameState.Pause (r - i.dt), sc, lv, qu, ch, pl, al, sop, ri⟩ :=
  rfl

/-- A `Playing` tick with no breach whose (still `Normal`) player first
overlaps the correct answer box awards 100 points and starts the
half-second pause, leaving lives and everything else unchanged. -/
lemma step_correct_hit (w : ℚ) (rng : Nat → Nat) (fuel : Nat) (s : GState)
    (i : Input) (hgs : s.game_state = GameState.Playing)
    (hnob : s.alien.y + update_alien_speed s.score * i.dt + s.alien.height <
      GROUND_Y)
    (hnorm : (update_player w i s.player).state = PlayerState.Normal)
    (hov : firstOverlap (update_player w i s.player) s.choices = some true) :
    step w rng fuel s i =
      some { s with
        player := update_player w i s.player
        alien := { s.alien with
          speed := update_alien_speed s.score
          y := s.alien.y + update_alien_speed s.score * i.dt }
        score := s.score + 100
        game_state := GameState.Pause (1 / 2) } := by
  rcases s with ⟨gs, sc, lv, qu, ch, pl, al, sop, ri⟩
  simp only at hgs hnob hnorm hov
  subst hgs
  simp only [step]
  have hbr : breachStep w rng fuel
      ⟨GameState.Playing, sc, lv, qu, ch, update_player w i pl,
        { al with speed := update_alien_speed sc,
                  y := al.y + update_alien_speed sc * i.dt }, sop, ri⟩ =
      some ⟨GameState.Playing, sc, lv, qu, ch, update_player w i pl,
        { al with speed := update_alien_speed sc,
                  y := al.y + update_alien_speed sc * i.dt }, sop, ri⟩ := by
    unfold breachStep
    rw [if_neg]
    dsimp only
    exact not_le.mpr hnob
  rw [hbr]
  dsimp only
  have hcol := collideStep_inv
    ⟨GameState.Playing, sc, lv, qu, ch, update_player w i pl,
      { al with speed := update_alien_speed sc,
                y := al.y + update_alien_speed sc * i.dt }, sop, ri⟩
  rcases hcol with ⟨hmiss, heq⟩ | ⟨-, -, heq⟩ | ⟨-, hov2, -, -⟩ |
    ⟨-, hov2, -, -⟩
  · rcases hmiss with hnn | hnone
    · exact absurd hnorm hnn
    · dsimp only at hnone
      rw [hnone] at hov
      exact absurd hov (by simp)
  · rw [heq]
  · dsimp only at hov2
    rw [hov2] at hov
    exact absurd hov (by simp)
  · dsimp only at hov2
    rw [hov2] at hov
    exact absurd hov (by simp)

/-- Running any input script from a pause state whose total elapsed time
reaches the remaining countdown passes through a tick that returns to
`Playing` with reset player and hazard and a freshly generated question,
leaving score and lives unchanged. -/
lemma pause_expiry_run {w : ℚ} {rng : Nat → Nat} {fuel : Nat} :
    ∀ (inputs : List Input) (s : GState) (r : ℚ) (sf : GState),
      s.game_state = GameState.Pause r → 0 < r →
      (∀ i ∈ inputs, 0 ≤ i.dt) →
      r ≤ (inputs.map Input.dt).sum →
      runSteps w rng fuel s inputs = some sf →
      ∃ k, k < inputs.length ∧ ∃ s1,
        runSteps w rng fuel s (inputs.take (k + 1)) = some s1 ∧
        s1.game_state = GameState.Playing ∧ s1.player = new_player ∧
        s1.alien.y = 0 ∧ s1.score = s.score ∧ s1.lives = s.lives ∧
        generate_question w fuel s.score s.selected_op rng s.rngIdx =
          some (s1.question, s1.choices, s1.rngIdx) := by
  intro inputs
  induction inputs with
  | nil =>
      intro s r sf hgs hr hdt hsum hrun
      exfalso
      simp only [List.map_nil, List.sum_nil] at hsum
      linarith
  | cons i rest ih =>
      intro s r sf hgs hr hdt hsum hrun
      rcases s with ⟨gs, sc, lv, qu, ch, pl, al, sop, ri⟩
      simp only at hgs
      subst hgs
      simp only [runSteps] at hrun
      rw [step_pause_eq] at hrun
      by_cases hexp : r - i.dt ≤ 0
      · -- the countdown expires on this very tick
        rw [if_pos hexp] at hrun
        cases hgen : generate_question w fuel sc sop rng ri with
        | none => rw [hgen] at hrun; exact absurd hrun (by simp)
        | some qck =>
            rcases qck with ⟨q, c, k⟩
            rw [hgen] at hrun
            dsimp only at hrun
            refine ⟨0, by simp, ⟨GameState.Playing, sc, lv, q, c, new_player,
              { al with y := 0 }, sop, k⟩, ?_, rfl, rfl, rfl, rfl, rfl, ?_⟩
            · show runSteps w rng fuel _ [i] = _
              simp only [runSteps]
              rw [step_pause_eq, if_pos hexp, hgen]
            · rfl
      · -- the countdown continues: recurse on the tail
        rw [if_neg hexp] at hrun
        dsimp only at hrun
        have hsum2 : r - i.dt ≤ (rest.map Input.dt).sum := by
          simp only [List.map_cons, List.sum_cons] at hsum
          linarith
        obtain ⟨k, hk, s1, hrun1, hconds⟩ :=
          ih _ (r - i.dt) sf rfl (lt_of_not_le hexp)
            (fun j hj => hdt j (List.mem_cons_of_mem i hj)) hsum2 hrun
        refine ⟨k + 1, by simpa using Nat.succ_lt_succ hk, s1, ?_, hconds⟩
        rw [List.take_succ_cons]
        simp only [runSteps]
        rw [step_pause_eq, if_neg hexp]
        exact hrun1

/-- C6: a `Playing` tick without a breach in which the `Normal` player
first overlaps the correct answer choice while lives are positive awards
exactly 100 points and moves the phase to `Pause (1/2)` with everything
else (in particular lives) unchanged; and from any pause state, once the
accumulated frame time reaches the remaining countdown, some tick
returns the phase to `Playing` with the player and hazard reset to their
spawn poses and a freshly generated question, with score and lives
untouched. -/
theorem correct_answer_reward_flow :
    (∀ (w : ℚ) (rng : Nat → Nat) (fuel : Nat) (s : GState) (i : Input),
      s.game_state = GameState.Playing → 0 < s.lives →
      s.alien.y + update_alien_speed s.score * i.dt + s.alien.height <
        GROUND_Y →
      (update_player w i s.player).state = PlayerState.Normal →
      firstOverlap (update_player w i s.player) s.choices = some true →
      step w rng fuel s i =
        some { s with
          player := update_player w i s.player
          alien := { s.alien with
            speed := update_alien_speed s.score
            y := s.alien.y + update_alien_speed s.score * i.dt }
          score := s.score + 100
          game_state := GameState.Pause (1 / 2) }) ∧
    (∀ (w : ℚ) (rng : Nat → Nat) (fuel : Nat) (inputs : List Input)
      (s : GState) (r : ℚ) (sf : GState),
      s.game_state = GameState.Pause r → 0 < r →
      (∀ i ∈ inputs, 0 ≤ i.dt) → r ≤ (inputs.map Input.dt).sum →
      runSteps w rng fuel s inputs = some sf →
      ∃ k, k < inputs.length ∧ ∃ s1,
        runSteps w rng fuel s (inputs.take (k + 1)) = some s1 ∧
        s1.game_state = GameState.Playing ∧ s1.player = new_player ∧
        s1.alien.y = 0 ∧ s1.score = s.score ∧ s1.lives = s.lives ∧
        generate_question w fuel s.score s.selected_op rng s.rngIdx =
          some (s1.question, s1.choices, s1.rngIdx)) :=
  ⟨fun w rng fuel s i hgs _ hnob hnorm hov =>
      step_correct_hit w rng fuel s i hgs hnob hnorm hov,
   fun w rng fuel inputs s r sf => pause_expiry_run inputs s r sf⟩

/-- Witness for C6: a correct hit from `hoverState` and a pause that
expires on a 9-second tick. -/
theorem correct_answer_reward_flow_witness :
    (step 1024 rngA 5 hoverState Input.idle =
      some { hoverState with
        player := update_player 1024 Input.idle hoverState.player
        alien := { hoverState.alien with
          speed := update_alien_speed hoverState.score
          y := hoverState.alien.y +
            update_alien_speed hoverState.score * Input.idle.dt }
        score := hoverState.score + 100
        game_state := GameState.Pause (1 / 2) }) ∧
    (∃ k, k < ([breachIn] : List Input).length ∧ ∃ s1,
      runSteps 1024 rngA 5 pauseState (([breachIn] : List Input).take (k + 1)) =
        some s1 ∧
      s1.game_state = GameState.Playing ∧ s1.player = new_player ∧
      s1.alien.y = 0 ∧ s1.score = pauseState.score ∧
      s1.lives = pauseState.lives ∧
      generate_question 1024 5 pauseState.score pauseState.selected_op rngA
        pauseState.rngIdx = some (s1.question, s1.choices, s1.rngIdx)) :=
  ⟨correct_answer_reward_flow.1 1024 rngA 5 hoverState Input.idle rfl
      (by decide) (by decide) (by decide) (by decide),
   correct_answer_reward_flow.2 1024 rngA 5 [breachIn] pauseState (1 / 2)
      pauseStateAfter rfl (by norm_num) (by decide) (by decide) (by decide)⟩
